import Mathlib

/-!
Verification of `src/plugins/video_apply_model/model_inference.py`.

Shallow embedding of the worker-local decoder cache
(`_get_cached_decoder`, `_del_decoder`, `worker_init_fn`), the frame
chunking iterator (`TorchVideoFramesDataset.__iter__`), the worker
partition assignment, the input parsing (`_parse_inputs`) and the
collation wrapper (`_make_video_collate`).

Modelling conventions:
  * A Python `OrderedDict` is a list of key/value pairs with unique keys,
    front = least recently inserted/used, back = most recently used.
  * An `FFmpegVideoReader` decoder is identified by the value of a fresh
    counter (`nextId`) at the moment it is opened; closing a decoder
    appends its identifier to `closed`.  Whether `close()` raises is an
    environment parameter `cf : Nat → Bool` indexed by decoder identifier.
  * A frame iterator is the pair (decoder identifier, cursor); the cursor
    is the number of frames already pulled from it.
  * Python exceptions are the inductive `PyErr`; a function that can raise
    returns the mutated global state together with `Option PyErr`
    (`some e` = the exception `e` propagated, state reflects the
    mutations performed before the raise).
  * Video paths are assumed to be non-empty strings, so `Option String`
    faithfully models the truthiness test `if video_path:`.
-/

/-- Python exceptions relevant to the embedded code. -/
inductive PyErr where
  | keyError : String → PyErr
  | valueError : String → PyErr
  | attributeError : String → PyErr
  | closeError : Nat → PyErr
deriving Repr, DecidableEq

/-- The worker-local global state: `_worker_decoder_cache` (path ↦ decoder
identifier), `_worker_iterator_cache` (path ↦ (iterator identifier, cursor)),
the list of decoder identifiers that have been closed so far, and the fresh
identifier counter for newly opened decoders. -/
structure CacheState where
  dec : List (String × Nat)
  iter : List (String × (Nat × Nat))
  closed : List Nat
  nextId : Nat
deriving Repr, DecidableEq

/-- Lookup in an ordered dict (`d[k]` / `k in d`). -/
def odLookup {α : Type} : List (String × α) → String → Option α
  | [], _ => none
  | (q, v) :: t, p => if q = p then some v else odLookup t p

/-- Deletion of a key from an ordered dict (`d.pop(k)` / `del d[k]`),
removing the first (only) occurrence. -/
def odRemove {α : Type} : List (String × α) → String → List (String × α)
  | [], _ => []
  | (q, v) :: t, p => if q = p then t else (q, v) :: odRemove t p

/-- `worker_init_fn`: both caches empty. -/
def workerInit : CacheState := ⟨[], [], [], 0⟩

/-- `_del_decoder(video_path=None)` (source lines 149–163).

`if not _worker_decoder_cache: return`; then with a (truthy) path:
`pop` (raising `KeyError` when absent), `close()` (which may raise), then
`del _worker_iterator_cache[video_path]`; with no path: `popitem(last=False)`
on the decoder cache, `close()`, then delete the same key from the iterator
cache. -/
def delDecoder (cf : Nat → Bool) (st : CacheState) (vp : Option String) :
    CacheState × Option PyErr :=
  if st.dec = [] then (st, none)
  else
    match vp with
    | some p =>
      match odLookup st.dec p with
      | none => (st, some (PyErr.keyError p))
      | some d =>
        if cf d then
          ({ st with dec := odRemove st.dec p }, some (PyErr.closeError d))
        else if st.iter.any (fun e => e.1 == p) then
          ({ st with
              dec := odRemove st.dec p
              closed := st.closed ++ [d]
              iter := odRemove st.iter p }, none)
        else
          ({ st with dec := odRemove st.dec p, closed := st.closed ++ [d] },
            some (PyErr.keyError p))
    | none =>
      match st.dec with
      | [] => (st, none)
      | (p, d) :: rest =>
        if cf d then
          ({ st with dec := rest }, some (PyErr.closeError d))
        else if st.iter.any (fun e => e.1 == p) then
          ({ st with
              dec := rest
              closed := st.closed ++ [d]
              iter := odRemove st.iter p }, none)
        else
          ({ st with dec := rest, closed := st.closed ++ [d] },
            some (PyErr.keyError p))

/-- `_get_cached_decoder(video_path, max_cached)` (source lines 123–146).

On a hit, `move_to_end` in both caches and return the cached pair; on a
miss, open a fresh decoder with a fresh iterator (cursor 0), insert both
as most-recently-used, and if the decoder cache now exceeds `max_cached`,
evict via `_del_decoder()` with no path. -/
def getCachedDecoder (cf : Nat → Bool) (st : CacheState) (p : String)
    (maxCached : Nat) : CacheState × Except PyErr (Nat × (Nat × Nat)) :=
  match odLookup st.dec p with
  | some d =>
    match odLookup st.iter p with
    | some iv =>
      ({ st with
          dec := odRemove st.dec p ++ [(p, d)]
          iter := odRemove st.iter p ++ [(p, iv)] },
        Except.ok (d, iv))
    | none =>
      ({ st with dec := odRemove st.dec p ++ [(p, d)] },
        Except.error (PyErr.keyError p))
  | none =>
    if maxCached < (st.dec ++ [(p, st.nextId)]).length then
      match delDecoder cf
          { st with
            dec := st.dec ++ [(p, st.nextId)]
            iter := st.iter ++ [(p, (st.nextId, 0))]
            nextId := st.nextId + 1 } none with
      | (st2, some e) => (st2, Except.error e)
      | (st2, none) => (st2, Except.ok (st.nextId, (st.nextId, 0)))
    else
      ({ st with
          dec := st.dec ++ [(p, st.nextId)]
          iter := st.iter ++ [(p, (st.nextId, 0))]
          nextId := st.nextId + 1 },
        Except.ok (st.nextId, (st.nextId, 0)))

/-- A sequence of `_get_cached_decoder` calls (return values discarded,
exceptions from eviction cannot occur once the cache is warm but the state
threading is faithful either way). -/
def runGets (cf : Nat → Bool) (maxCached : Nat) :
    CacheState → List String → CacheState
  | st, [] => st
  | st, p :: ps => runGets cf maxCached (getCachedDecoder cf st p maxCached).1 ps

/-- A chunk yielded by `TorchVideoFramesDataset.__iter__`: the dictionary
`{"frames": ..., "sample_idx": ..., "frame_ids": ...}`.  The frames entry is
polymorphic because `_make_video_collate` replaces the frame list by the
model's collated representation. -/
structure Chunk (α : Type) where
  frames : α
  sample_idx : Option String
  frame_ids : List Nat
deriving Repr, DecidableEq

/-- `np.arange(a, b)`: the naturals from `a` (inclusive) to `b`
(exclusive). -/
def npArange (a b : Nat) : List Nat := List.range' a (b - a)

/-- A frame is abstracted to a natural number (its decoded content);
`np.array(img)` is the identity on this abstraction.  The optional
per-frame transform may raise. -/
def applyTr (tr : Option (Nat → Except PyErr Nat)) (x : Nat) :
    Except PyErr Nat :=
  match tr with
  | none => Except.ok x
  | some t => t x

/-- The frame loop of `TorchVideoFramesDataset.__iter__`
(source lines 290–318) for one video: pull frames from `rem` (the frames
the decoder iterator has yet to yield), apply the transform, accumulate
into `acc` (the current `frames_chunk`) with `fn` the current `frame_num`;
yield a chunk whenever `len(frames_chunk) == chunk_size`, and yield the
final partial chunk when non-empty.  Returns (yielded chunks in order,
number of frames pulled from the iterator, the exception that aborted the
loop, if any). -/
def chunkLoop (tr : Option (Nat → Except PyErr Nat)) (c : Nat)
    (sid : Option String) :
    List Nat → List Nat → Nat → List (Chunk (List Nat)) × Nat × Option PyErr
  | [], acc, fn =>
    match acc with
    | [] => ([], 0, none)
    | _ :: _ =>
      ([⟨acc, sid, (npArange (fn - acc.length) fn).map (fun x => x + 1)⟩],
        0, none)
  | img :: rest, acc, fn =>
    match applyTr tr img with
    | Except.error e => ([], 1, some e)
    | Except.ok y =>
      if (acc ++ [y]).length = c then
        match chunkLoop tr c sid rest [] (fn + 1) with
        | (chs, k, e) =>
          (⟨acc ++ [y], sid,
              (npArange (fn + 1 - c) (fn + 1)).map (fun x => x + 1)⟩ :: chs,
            k + 1, e)
      else
        match chunkLoop tr c sid rest (acc ++ [y]) (fn + 1) with
        | (chs, k, e) => (chs, k + 1, e)

/-- Mutating the cursor of the iterator object cached for `p` (the Python
iterator advances in place; the `OrderedDict` slot keeps its position). -/
def setCursor (st : CacheState) (p : String) (cur : Nat) : CacheState :=
  { st with
    iter := st.iter.map (fun e => if e.1 = p then (e.1, (e.2.1, cur)) else e) }

/-- One iteration of the `for video_idx in video_indices` body of
`TorchVideoFramesDataset.__iter__` (source lines 282–321): get the cached
decoder/iterator, run the frame loop (with `frame_num` starting at 0), and
on normal exhaustion call `_del_decoder(video_path)`.  `videos path` gives
the full frame sequence of the video at `path`; the iterator resumes at
its cached cursor.  When the loop raises, the exception propagates and the
final `_del_decoder` call is NOT executed (there is no try/finally in the
source). -/
def iterOneVideo (cf : Nat → Bool) (videos : String → List Nat)
    (tr : Option (Nat → Except PyErr Nat)) (chunkSize : Nat)
    (maxCached : Nat) (p : String) (sid : Option String) (st : CacheState) :
    List (Chunk (List Nat)) × CacheState × Option PyErr :=
  match getCachedDecoder cf st p maxCached with
  | (st1, Except.error e) => ([], st1, some e)
  | (st1, Except.ok (_, (_, cur))) =>
    match chunkLoop tr chunkSize sid ((videos p).drop cur) [] 0 with
    | (chs, k, err) =>
      let st2 := setCursor st1 p (cur + k)
      match err with
      | some e => (chs, st2, some e)
      | none =>
        match delDecoder cf st2 (some p) with
        | (st3, e3) => (chs, st3, e3)

/-- Python `range(start, stop, step)` for `step ≥ 1`. -/
def rangeStep (start stop step : Nat) : List Nat :=
  (List.range ((stop - start + step - 1) / step)).map (fun i => start + i * step)

/-- The video indices assigned to this worker
(source lines 265–280): all of `range(len(video_paths))` when
`get_worker_info()` returns `None`, else
`range(worker_id, len(video_paths), num_workers)`. -/
def videoIndices (numVideos : Nat) (workerInfo : Option (Nat × Nat)) :
    List Nat :=
  match workerInfo with
  | none => List.range numVideos
  | some (wid, nw) => rangeStep wid numVideos nw

/-- The whole of `TorchVideoFramesDataset.__iter__` from a given assigned
index list: per index, take the video path (and the sample id when
`self.sample_ids` is truthy, i.e. a non-empty list) and run the per-video
body; an exception aborts the whole generator with the chunks yielded so
far. -/
def datasetIterFrom (cf : Nat → Bool) (videos : String → List Nat)
    (tr : Option (Nat → Except PyErr Nat)) (chunkSize maxCached : Nat)
    (videoPaths : List String) (sampleIds : Option (List String)) :
    List Nat → CacheState → List (Chunk (List Nat)) × CacheState × Option PyErr
  | [], st => ([], st, none)
  | i :: rest, st =>
    let p := videoPaths.getD i ""
    let sid : Option String :=
      match sampleIds with
      | none => none
      | some [] => none
      | some ids => some (ids.getD i "")
    match iterOneVideo cf videos tr chunkSize maxCached p sid st with
    | (chs, st1, some e) => (chs, st1, some e)
    | (chs, st1, none) =>
      match datasetIterFrom cf videos tr chunkSize maxCached videoPaths
          sampleIds rest st1 with
      | (chs2, st2, e2) => (chs ++ chs2, st2, e2)

/-- `TorchVideoFramesDataset.__iter__` (source lines 265–321). -/
def datasetIter (cf : Nat → Bool) (videos : String → List Nat)
    (tr : Option (Nat → Except PyErr Nat)) (chunkSize maxCached : Nat)
    (videoPaths : List String) (sampleIds : Option (List String))
    (workerInfo : Option (Nat × Nat)) (st : CacheState) :
    List (Chunk (List Nat)) × CacheState × Option PyErr :=
  datasetIterFrom cf videos tr chunkSize maxCached videoPaths sampleIds
    (videoIndices videoPaths.length workerInfo) st

/-- A sample collection, as far as `_parse_inputs` consumes it:
`samples.values("filepath")` and `samples.values("id")`. -/
structure Samples where
  filepaths : List String
  ids : List String
deriving Repr, DecidableEq

/-- `samples.values(field)` where `samples` may be `None`: attribute access
on `None` raises `AttributeError`. -/
def samplesValues (s : Option Samples) (field : Samples → List String) :
    Except PyErr (List String) :=
  match s with
  | none => Except.error
      (PyErr.attributeError "NoneType object has no attribute values")
  | some ss => Except.ok (field ss)

/-- `TorchVideoFramesDataset._parse_inputs` (source lines 245–263). -/
def parseInputs (video_paths : Option (List String))
    (samples : Option Samples) (sample_ids : Option (List String))
    (include_ids : Bool) :
    Except PyErr (List String × Option (List String)) :=
  match video_paths, samples with
  | none, none =>
    Except.error
      (PyErr.valueError "Either video_paths or samples must be provided")
  | _, _ =>
    match
      (match video_paths with
        | none => samplesValues samples (fun s => s.filepaths)
        | some v => Except.ok v) with
    | Except.error e => Except.error e
    | Except.ok vp =>
      match
        (if include_ids ∧ sample_ids.isNone then
          match samplesValues samples (fun s => s.ids) with
          | Except.error e => Except.error e
          | Except.ok ids => Except.ok (some ids)
        else Except.ok sample_ids) with
      | Except.error e => Except.error e
      | Except.ok sid => Except.ok (vp, sid)

/-- The fields of `TorchVideoFramesDataset` set by `__init__`. -/
structure TVFDataset where
  chunk_size : Nat
  max_cached_decoders : Nat
  video_paths : List String
  sample_ids : Option (List String)
  skip_failures : Bool
deriving Repr, DecidableEq

/-- `TorchVideoFramesDataset.__init__` (source lines 219–243):
`chunk_size` defaults to 1, and `_parse_inputs` runs before any field is
available, so an error there means no dataset object is constructed (and a
fortiori no iteration happens). -/
def initDataset (video_paths : Option (List String))
    (samples : Option Samples) (sample_ids : Option (List String))
    (include_ids : Bool) (chunk_size : Option Nat) (skip_failures : Bool)
    (max_cached_decoders : Nat) : Except PyErr TVFDataset :=
  match parseInputs video_paths samples sample_ids include_ids with
  | Except.error e => Except.error e
  | Except.ok (vp, sid) =>
    Except.ok
      ⟨chunk_size.getD 1, max_cached_decoders, vp, sid, skip_failures⟩

/-- `_make_video_collate(model_collate)` (source lines 207–215): for each
chunk in the batch, replace its frames entry by the model collation of its
frame list; everything else passes through, order preserved. -/
def videoCollateFn {α β : Type} (model_collate : α → β)
    (batch : List (Chunk α)) : List (Chunk β) :=
  batch.map (fun b => ⟨model_collate b.frames, b.sample_idx, b.frame_ids⟩)

/-! ### Helper lemmas about ordered dicts and index ranges -/

theorem odLookup_isSome_any {α : Type} (l : List (String × α)) (p : String) :
    (odLookup l p).isSome = l.any (fun e => e.1 == p) := by
  induction l with
  | nil => rfl
  | cons e t ih =>
    obtain ⟨q, v⟩ := e
    by_cases h : q = p
    · simp [odLookup, h]
    · simp [odLookup, h, ih]

theorem odRemove_length {α : Type} (l : List (String × α)) (p : String)
    (v : α) (h : odLookup l p = some v) :
    (odRemove l p).length + 1 = l.length := by
  induction l with
  | nil => simp [odLookup] at h
  | cons e t ih =>
    obtain ⟨q, w⟩ := e
    by_cases hq : q = p
    · simp [odRemove, hq]
    · simp only [odLookup, if_neg hq] at h
      simp [odRemove, hq, ih h]

theorem odRemove_append_perm {α : Type} (l : List (String × α)) (p : String)
    (v : α) (h : odLookup l p = some v) :
    (odRemove l p ++ [(p, v)]).Perm l := by
  induction l with
  | nil => simp [odLookup] at h
  | cons e t ih =>
    obtain ⟨q, w⟩ := e
    by_cases hq : q = p
    · simp only [odLookup, if_pos hq] at h
      obtain rfl : w = v := by injection h
      subst hq
      simp [odRemove, List.perm_append_singleton]
    · simp only [odLookup, if_neg hq] at h
      simp only [odRemove, if_neg hq, List.cons_append]
      exact List.Perm.cons _ (ih h)

/-- Removal of a key from a key list (the key image of `odRemove`). -/
def remKey : List String → String → List String
  | [], _ => []
  | q :: t, p => if q = p then t else q :: remKey t p

theorem keys_odRemove {α : Type} (l : List (String × α)) (p : String) :
    (odRemove l p).map Prod.fst = remKey (l.map Prod.fst) p := by
  induction l with
  | nil => rfl
  | cons e t ih =>
    obtain ⟨q, w⟩ := e
    by_cases hq : q = p <;> simp [odRemove, remKey, hq, ih]

theorem keys_lookup_isSome {α β : Type} (l : List (String × α))
    (l2 : List (String × β)) (p : String)
    (h : l.map Prod.fst = l2.map Prod.fst) :
    (odLookup l p).isSome = (odLookup l2 p).isSome := by
  induction l generalizing l2 with
  | nil =>
    cases l2 with
    | nil => rfl
    | cons e t => simp at h
  | cons e t ih =>
    cases l2 with
    | nil => simp at h
    | cons e2 t2 =>
      obtain ⟨q, w⟩ := e
      obtain ⟨q2, w2⟩ := e2
      simp only [List.map_cons, List.cons.injEq] at h
      obtain ⟨h1, ht⟩ := h
      rcases h1
      by_cases hq : q = p <;> simp [odLookup, hq, ih t2 ht]

theorem npArange_map_add_one (a b : Nat) :
    (npArange a b).map (fun x => x + 1) = List.range' (a + 1) (b - a) := by
  have h : (fun x : Nat => x + 1) = (fun x : Nat => 1 + x) := by
    funext x; omega
  rw [npArange, h]
  have h2 := List.map_add_range' 1 a (b - a) 1
  simpa [Nat.add_comm] using h2

/-! ### The chunking invariant -/

/-- Specification of a successful run of `chunkLoop` that starts `s`
identifiers into the video and covers `m` frames in total, consuming `k`
frames from the iterator: no exception, the concatenated identifiers are
`s, s+1, ..., s+m-1`, every chunk has as many identifiers as frames and
its identifiers are a contiguous strictly increasing run, every chunk but
the last has exactly `c` frames, there are `⌈m/c⌉` chunks, and the last
chunk has `m % c` frames when `m % c ≠ 0` (every chunk, the last included,
has `c` frames when `m % c = 0`). -/
def ChunkSpec (c s m k : Nat)
    (out : List (Chunk (List Nat)) × Nat × Option PyErr) : Prop :=
  out.2.2 = none ∧
  out.2.1 = k ∧
  (out.1.map (fun ch => ch.frame_ids)).flatten = List.range' s m ∧
  (∀ ch ∈ out.1, ch.frame_ids.length = ch.frames.length ∧
    ∃ s0, ch.frame_ids = List.range' s0 ch.frames.length) ∧
  (∀ ch ∈ out.1.dropLast, ch.frames.length = c) ∧
  out.1.length = (m + c - 1) / c ∧
  (m % c ≠ 0 →
    out.1.getLast?.map (fun ch => ch.frames.length) = some (m % c)) ∧
  (m % c = 0 → ∀ ch ∈ out.1, ch.frames.length = c)

theorem chunkLoop_spec (tr : Option (Nat → Except PyErr Nat)) (c : Nat)
    (sid : Option String) (hc : 0 < c) :
    ∀ (rem acc : List Nat) (fn : Nat),
      (∀ f ∈ rem, ∃ y, applyTr tr f = Except.ok y) →
      acc.length < c → acc.length ≤ fn →
      ChunkSpec c (fn + 1 - acc.length) (acc.length + rem.length) rem.length
        (chunkLoop tr c sid rem acc fn) := by
  intro rem
  induction rem with
  | nil =>
    intro acc fn _ hlt hle
    rcases acc with _ | ⟨a, t⟩
    · refine ⟨rfl, rfl, ?_, ?_, ?_, ?_, ?_, ?_⟩
      · simp [chunkLoop]
      · simp [chunkLoop]
      · simp [chunkLoop]
      · simpa [chunkLoop] using (Nat.div_eq_of_lt (by omega)).symm
      · intro h; simp at h
      · intro _; simp [chunkLoop]
    · have hlt' : t.length + 1 < c := by simpa using hlt
      have hle' : t.length + 1 ≤ fn := by simpa using hle
      have hids : (npArange (fn - (t.length + 1)) fn).map (fun x => x + 1)
          = List.range' (fn + 1 - (t.length + 1)) (t.length + 1) := by
        rw [npArange_map_add_one]
        congr 1 <;> omega
      have hred : chunkLoop tr c sid [] (a :: t) fn
          = ([⟨a :: t, sid,
                (npArange (fn - (t.length + 1)) fn).map (fun x => x + 1)⟩],
              0, none) := by
        simp [chunkLoop]
      rw [hred]
      refine ⟨rfl, rfl, ?_, ?_, ?_, ?_, ?_, ?_⟩
      · simp only [List.map_cons, List.map_nil, List.flatten_cons,
          List.flatten_nil, List.append_nil, hids, List.length_cons,
          List.length_nil, Nat.add_zero]
      · intro ch hch
        simp only [List.mem_singleton] at hch
        subst hch
        refine ⟨by simp [hids], fn + 1 - (t.length + 1), by simp [hids]⟩
      · intro ch hch
        simp at hch
      · simp only [List.length_singleton, List.length_cons, List.length_nil,
          Nat.add_zero, Nat.zero_add]
        have h1 : t.length + 1 + c - 1 = 1 * c + t.length := by omega
        have h2 : (1 * c + t.length) / c = 1 :=
          Nat.div_eq_of_lt_le (by omega) (by omega)
        rw [h1, h2]
      · intro h
        simp only [List.length_cons, List.length_nil, Nat.add_zero] at h ⊢
        rw [Nat.mod_eq_of_lt hlt']
        simp
      · intro h
        simp only [List.length_cons, List.length_nil, Nat.add_zero] at h
        rw [Nat.mod_eq_of_lt hlt'] at h
        omega
  | cons img rest ih =>
    intro acc fn hok hlt hle
    obtain ⟨y, hy⟩ := hok img (List.mem_cons_self img rest)
    have hok' : ∀ f ∈ rest, ∃ z, applyTr tr f = Except.ok z :=
      fun f hf => hok f (List.mem_cons_of_mem img hf)
    by_cases hfull : (acc ++ [y]).length = c
    · rcases hout : chunkLoop tr c sid rest [] (fn + 1) with ⟨chs, k, e⟩
      have IH := ih [] (fn + 1) hok' (by simpa using hc) (by simp)
      rw [hout] at IH
      obtain ⟨ih1, ih2, ih3, ih4, ih5, ih6, ih7, ih8⟩ := IH
      have ih1' : e = none := ih1
      have ih2' : k = rest.length := ih2
      have ih3' : (chs.map (fun ch => ch.frame_ids)).flatten
          = List.range' (fn + 2) rest.length := by simpa using ih3
      have ih4' : ∀ ch ∈ chs, ch.frame_ids.length = ch.frames.length ∧
          ∃ s0, ch.frame_ids = List.range' s0 ch.frames.length := ih4
      have ih5' : ∀ ch ∈ chs.dropLast, ch.frames.length = c := ih5
      have ih6' : chs.length = (rest.length + c - 1) / c := by simpa using ih6
      have ih7' : rest.length % c ≠ 0 →
          chs.getLast?.map (fun ch => ch.frames.length)
            = some (rest.length % c) := by simpa using ih7
      have ih8' : rest.length % c = 0 → ∀ ch ∈ chs, ch.frames.length = c := by
        simpa using ih8
      have hLc : acc.length + 1 = c := by simpa using hfull
      have hids : (npArange (fn + 1 - c) (fn + 1)).map (fun x => x + 1)
          = List.range' (fn + 1 - acc.length) c := by
        rw [npArange_map_add_one]
        congr 1 <;> omega
      have hred : chunkLoop tr c sid (img :: rest) acc fn
          = (⟨acc ++ [y], sid,
                (npArange (fn + 1 - c) (fn + 1)).map (fun x => x + 1)⟩ :: chs,
              k + 1, e) := by
        simp only [chunkLoop, hy, if_pos hfull, hout]
      rw [hred]
      refine ⟨ih1', ?_, ?_, ?_, ?_, ?_, ?_, ?_⟩
      · simp [ih2']
      · simp only [List.map_cons, List.flatten_cons, hids, ih3',
          List.length_cons]
        have hstart : fn + 1 - acc.length + c = fn + 2 := by omega
        have hm : acc.length + (rest.length + 1) = rest.length + c := by omega
        rw [hm, ← List.range'_append_1 (fn + 1 - acc.length) c rest.length,
          hstart]
      · intro ch hch
        rcases List.mem_cons.mp hch with hch | hch
        · subst hch
          refine ⟨by simp [hids, hLc], fn + 1 - acc.length,
            by simp [hids, hLc]⟩
        · exact ih4' ch hch
      · intro ch hch
        rcases hchs : chs with _ | ⟨c0, ct⟩
        · rw [hchs] at hch
          simp at hch
        · rw [hchs] at hch
          rw [List.dropLast_cons_of_ne_nil (by simp)] at hch
          rcases List.mem_cons.mp hch with hch | hch
          · subst hch; simp [hLc]
          · exact ih5' ch (by rw [hchs]; exact hch)
      · simp only [List.length_cons, ih6']
        have h1 : acc.length + (rest.length + 1) + c - 1
            = rest.length + c - 1 + c := by omega
        rw [h1, Nat.add_div_right _ hc]
      · intro h
        simp only [List.length_cons] at h ⊢
        have hm9 : (acc.length + (rest.length + 1)) % c = rest.length % c := by
          have h2 : acc.length + (rest.length + 1) = c + rest.length := by
            omega
          rw [h2, Nat.add_mod_left]
        rw [hm9] at h ⊢
        have hne : chs ≠ [] := by
          intro hnil
          rw [hnil] at ih6'
          simp only [List.length_nil] at ih6'
          have h3 : rest.length + c - 1 < c :=
            (Nat.div_eq_zero_iff hc).mp ih6'.symm
          have hr0 : rest.length = 0 := by omega
          rw [hr0] at h
          simp at h
        rcases hchs : chs with _ | ⟨c0, ct⟩
        · exact absurd hchs hne
        · rw [hchs] at ih7'
          rw [List.getLast?_cons_cons]
          exact ih7' h
      · intro h ch hch
        simp only [List.length_cons] at h
        have hm9 : (acc.length + (rest.length + 1)) % c = rest.length % c := by
          have h2 : acc.length + (rest.length + 1) = c + rest.length := by
            omega
          rw [h2, Nat.add_mod_left]
        rw [hm9] at h
        rcases List.mem_cons.mp hch with hch | hch
        · subst hch; simp [hLc]
        · exact ih8' h ch hch
    · rcases hout : chunkLoop tr c sid rest (acc ++ [y]) (fn + 1) with
        ⟨chs, k, e⟩
      have hlen : (acc ++ [y]).length = acc.length + 1 := by simp
      have hf1 : acc.length + 1 ≠ c := by rw [← hlen]; exact hfull
      have IH := ih (acc ++ [y]) (fn + 1) hok' (by rw [hlen]; omega)
        (by rw [hlen]; omega)
      rw [hout] at IH
      obtain ⟨ih1, ih2, ih3, ih4, ih5, ih6, ih7, ih8⟩ := IH
      have hs : fn + 1 + 1 - (acc ++ [y]).length = fn + 1 - acc.length := by
        rw [hlen]; omega
      have hm : (acc ++ [y]).length + rest.length
          = acc.length + (img :: rest).length := by
        rw [hlen]; simp only [List.length_cons]; omega
      rw [hs, hm] at ih3
      rw [hm] at ih6 ih7 ih8
      have hred : chunkLoop tr c sid (img :: rest) acc fn = (chs, k + 1, e) := by
        simp only [chunkLoop, hy, if_neg hfull, hout]
      rw [hred]
      have ih2' : k = rest.length := ih2
      exact ⟨ih1, by simp [ih2'], ih3, ih4, ih5, ih6, ih7, ih8⟩

/-! ### Claim theorems -/

/-- C1: for every chunk size `c ≥ 1` and every video whose decoder iterator
yields the frame list `fr` (so `n = fr.length` frames), with a transform
that succeeds on every frame, the frame-chunking loop raises nothing and
yields exactly `⌈n/c⌉` chunks; every chunk except possibly the last has
exactly `c` frames; the last chunk has `n % c` frames when `n % c ≠ 0`
(every chunk has `c` when `n % c = 0`); the concatenation of the chunks'
`frame_ids` lists is `[1, 2, ..., n]` in order with each identifier exactly
once; and within every chunk `len(frame_ids) = len(frames)` with the
identifiers a contiguous strictly increasing run. -/
theorem chunking_yields_ceil_chunks (c : Nat) (hc : 1 ≤ c) (fr : List Nat)
    (sid : Option String) (tr : Option (Nat → Except PyErr Nat))
    (hok : ∀ f ∈ fr, ∃ y, applyTr tr f = Except.ok y) :
    (chunkLoop tr c sid fr [] 0).2.2 = none ∧
    (chunkLoop tr c sid fr [] 0).1.length = (fr.length + c - 1) / c ∧
    (∀ ch ∈ (chunkLoop tr c sid fr [] 0).1.dropLast, ch.frames.length = c) ∧
    (fr.length % c ≠ 0 →
      ((chunkLoop tr c sid fr [] 0).1.getLast?).map
          (fun ch => ch.frames.length) = some (fr.length % c)) ∧
    (fr.length % c = 0 →
      ∀ ch ∈ (chunkLoop tr c sid fr [] 0).1, ch.frames.length = c) ∧
    ((chunkLoop tr c sid fr [] 0).1.map (fun ch => ch.frame_ids)).flatten
      = List.range' 1 fr.length ∧
    (∀ ch ∈ (chunkLoop tr c sid fr [] 0).1,
      ch.frame_ids.length = ch.frames.length ∧
      ∃ s0, ch.frame_ids = List.range' s0 ch.frames.length) := by
  have h := chunkLoop_spec tr c sid hc fr [] 0 hok (by simpa using hc)
    (by simp)
  obtain ⟨h1, h2, h3, h4, h5, h6, h7, h8⟩ := h
  exact ⟨h1, by simpa using h6, h5, by simpa using h7, by simpa using h8,
    by simpa using h3, h4⟩

/-- Witness for C1 at the spec scenario: a 10-frame video with chunk size 4
gives chunks of lengths 4, 4, 2 with identifiers 1..10 in order. -/
theorem chunking_yields_ceil_chunks_witness :
    (1 ≤ 4 ∧ ∀ f ∈ List.range' 1 10, ∃ y, applyTr none f = Except.ok y) ∧
    (chunkLoop none 4 none (List.range' 1 10) [] 0).1.length = 3 ∧
    ((chunkLoop none 4 none (List.range' 1 10) [] 0).1.map
        (fun ch => ch.frame_ids)).flatten = List.range' 1 10 := by
  refine ⟨⟨by decide, fun f _ => ⟨f, rfl⟩⟩, ?_, ?_⟩
  · have h := (chunking_yields_ceil_chunks 4 (by decide) (List.range' 1 10)
      none none (fun f _ => ⟨f, rfl⟩)).2.1
    simpa using h
  · have h := (chunking_yields_ceil_chunks 4 (by decide) (List.range' 1 10)
      none none (fun f _ => ⟨f, rfl⟩)).2.2.2.2.2.1
    simpa using h

/-- Characterisation of strict upper bounds for a ceiling division. -/
theorem lt_ceil_div_iff (j x k : Nat) (hk : 0 < k) :
    j < (x + k - 1) / k ↔ j * k < x := by
  rcases Nat.eq_zero_or_pos x with hx | hx
  · subst hx
    have h0 : (0 + k - 1) / k = 0 := Nat.div_eq_of_lt (by omega)
    rw [h0]
    omega
  · constructor
    · intro h
      have h2 : (j + 1) * k ≤ x + k - 1 :=
        (Nat.le_div_iff_mul_le hk).mp (Nat.succ_le_of_lt h)
      have h3 : j * k + k ≤ x + k - 1 := by
        calc j * k + k = (j + 1) * k := by ring
          _ ≤ x + k - 1 := h2
      omega
    · intro h
      have h3 : j * k + k ≤ x + k - 1 := by omega
      have h2 : (j + 1) * k ≤ x + k - 1 := by
        calc (j + 1) * k = j * k + k := by ring
          _ ≤ x + k - 1 := h3
      have := (Nat.le_div_iff_mul_le hk).mpr h2
      omega

/-- Membership in the index range assigned to worker `w` of `k`. -/
theorem videoIndices_mem (m k w : Nat) (hk : 0 < k) (hw : w < k) (i : Nat) :
    i ∈ videoIndices m (some (w, k)) ↔ (i < m ∧ i % k = w) := by
  unfold videoIndices rangeStep
  simp only [List.mem_map, List.mem_range]
  constructor
  · rintro ⟨j, hj, rfl⟩
    have hjk : j * k < m - w := (lt_ceil_div_iff j (m - w) k hk).mp hj
    refine ⟨by omega, ?_⟩
    rw [Nat.add_mul_mod_self_right]
    exact Nat.mod_eq_of_lt hw
  · rintro ⟨him, hmod⟩
    refine ⟨i / k, ?_, ?_⟩
    · rw [lt_ceil_div_iff _ _ _ hk]
      have h1 := Nat.div_add_mod i k
      have h2 : i / k * k = k * (i / k) := Nat.mul_comm _ _
      omega
    · have h1 := Nat.div_add_mod i k
      have h2 : i / k * k = k * (i / k) := Nat.mul_comm _ _
      omega

/-- Each worker's assigned index list is strictly increasing. -/
theorem videoIndices_sorted (m k w : Nat) (hk : 0 < k) :
    (videoIndices m (some (w, k))).Pairwise (· < ·) := by
  unfold videoIndices rangeStep
  rw [List.pairwise_map]
  apply List.Pairwise.imp ?_ (List.pairwise_lt_range _)
  intro a b hab
  have h1 : a * k < b * k := (Nat.mul_lt_mul_right hk).mpr hab
  omega

/-- C3: for every worker count `k ≥ 1` and video list length `m`, worker
`w < k` is assigned exactly the indices `i < m` with `i % k = w`, in
increasing order; distinct workers' assignments are disjoint; every index
below `m` is assigned to some worker; and with no worker info the single
worker receives all indices `0, ..., m-1` in original order. -/
theorem worker_partition_correct (k m : Nat) (hk : 1 ≤ k) :
    (∀ w, w < k → ∀ i,
      i ∈ videoIndices m (some (w, k)) ↔ (i < m ∧ i % k = w)) ∧
    (∀ w, w < k → (videoIndices m (some (w, k))).Pairwise (· < ·)) ∧
    (∀ w w2, w < k → w2 < k → w ≠ w2 → ∀ i,
      i ∈ videoIndices m (some (w, k)) →
      i ∉ videoIndices m (some (w2, k))) ∧
    (∀ i, i < m → ∃ w, w < k ∧ i ∈ videoIndices m (some (w, k))) ∧
    videoIndices m none = List.range m := by
  refine ⟨?_, ?_, ?_, ?_, rfl⟩
  · intro w hw i
    exact videoIndices_mem m k w hk hw i
  · intro w hw
    exact videoIndices_sorted m k w hk
  · intro w w2 hw hw2 hne i hi hi2
    rw [videoIndices_mem m k w hk hw i] at hi
    rw [videoIndices_mem m k w2 hk hw2 i] at hi2
    exact hne (by omega)
  · intro i him
    refine ⟨i % k, Nat.mod_lt i hk, ?_⟩
    rw [videoIndices_mem m k (i % k) hk (Nat.mod_lt i hk) i]
    exact ⟨him, rfl⟩

/-- Witness for C3: two workers over seven videos, and the spec scenario of
a single worker receiving all seven videos in original order. -/
theorem worker_partition_correct_witness :
    1 ≤ 2 ∧
    videoIndices 7 none = List.range 7 ∧
    (3 ∈ videoIndices 7 (some (1, 2)) ↔ (3 < 7 ∧ 3 % 2 = 1)) := by
  refine ⟨by decide, (worker_partition_correct 2 7 (by decide)).2.2.2.2, ?_⟩
  exact (worker_partition_correct 2 7 (by decide)).1 1 (by decide) 3

/-- `_del_decoder()` with no path pops the front (least-recently-used)
entry of the decoder cache, whatever the close behaviour. -/
theorem delDecoder_none_length (cf : Nat → Bool) (st : CacheState) :
    ((delDecoder cf st none).1).dec.length = st.dec.length - 1 := by
  rcases hd : st.dec with _ | ⟨⟨q, d0⟩, t⟩
  · simp [delDecoder, hd]
  · by_cases hcf : cf d0
    · simp [delDecoder, hd, hcf]
    · by_cases hany : st.iter.any (fun e => e.1 == q) <;>
        simp [delDecoder, hd, hcf, hany]

/-- `_del_decoder()` with no path removes exactly the front
(least-recently-used) entry, and closes its decoder when close succeeds. -/
theorem delDecoder_evicts_front (cf : Nat → Bool) (st : CacheState)
    (p : String) (d : Nat) (rest : List (String × Nat))
    (h : st.dec = (p, d) :: rest) :
    ((delDecoder cf st none).1).dec = rest ∧
    (cf d = false → (delDecoder cf st none).1.closed = st.closed ++ [d]) := by
  constructor
  · by_cases hcf : cf d
    · simp [delDecoder, h, hcf]
    · by_cases hany : st.iter.any (fun e => e.1 == p) <;>
        simp [delDecoder, h, hcf, hany]
  · intro hcf
    by_cases hany : st.iter.any (fun e => e.1 == p) <;>
      simp [delDecoder, h, hcf, hany]

/-- One `_get_cached_decoder` call keeps the decoder cache within the
capacity bound (whatever the close behaviour during eviction, because the
`popitem` precedes the `close`). -/
theorem getCachedDecoder_card (cf : Nat → Bool) (mc : Nat)
    (st : CacheState) (p : String) (h : st.dec.length ≤ mc) :
    ((getCachedDecoder cf st p mc).1).dec.length ≤ mc := by
  cases hl : odLookup st.dec p with
  | some d =>
    have h2 := odRemove_length st.dec p d hl
    cases hi : odLookup st.iter p with
    | some iv =>
      simp only [getCachedDecoder, hl, hi]
      simp only [List.length_append, List.length_singleton]
      omega
    | none =>
      simp only [getCachedDecoder, hl, hi]
      simp only [List.length_append, List.length_singleton]
      omega
  | none =>
    by_cases hov : mc < (st.dec ++ [(p, st.nextId)]).length
    · have hlen := delDecoder_none_length cf
        { st with
          dec := st.dec ++ [(p, st.nextId)]
          iter := st.iter ++ [(p, (st.nextId, 0))]
          nextId := st.nextId + 1 }
      rcases hdel : delDecoder cf
        { st with
          dec := st.dec ++ [(p, st.nextId)]
          iter := st.iter ++ [(p, (st.nextId, 0))]
          nextId := st.nextId + 1 } none with ⟨st2, e2⟩
      rw [hdel] at hlen
      simp only [List.length_append, List.length_singleton] at hlen
      cases e2 <;> simp only [getCachedDecoder, hl, if_pos hov, hdel] <;>
        omega
    · simp only [getCachedDecoder, hl, if_neg hov]
      simp only [List.length_append, List.length_singleton] at hov ⊢
      omega

/-- Every `_get_cached_decoder` call in a sequence preserves the capacity
bound on the decoder cache. -/
theorem runGets_card (cf : Nat → Bool) (mc : Nat) (seq : List String) :
    ∀ st : CacheState, st.dec.length ≤ mc →
      (runGets cf mc st seq).dec.length ≤ mc := by
  induction seq with
  | nil => intro st h; exact h
  | cons p ps ih =>
    intro st h
    exact ih _ (getCachedDecoder_card cf mc st p h)

/-- C2: starting from the empty worker cache, after every
`_get_cached_decoder` call the decoder cache holds at most `mc` entries
(eviction is immediate); an eviction removes exactly the front entry of the
`OrderedDict` — the least-recently-used one, since hits and inserts move
entries to the back — and closes its decoder; and in the capacity-2
scenario with access order A, B, C the cache afterwards holds exactly
{B, C} and A's decoder (identifier 0) was closed. -/
theorem decoder_cache_lru_bound (mc : Nat) (_hmc : 1 ≤ mc) (cf : Nat → Bool)
    (seq : List String) :
    (runGets cf mc workerInit seq).dec.length ≤ mc ∧
    (∀ (st : CacheState) (p : String) (d : Nat) (rest : List (String × Nat)),
      st.dec = (p, d) :: rest →
      ((delDecoder cf st none).1).dec = rest ∧
      (cf d = false →
        (delDecoder cf st none).1.closed = st.closed ++ [d])) ∧
    ((runGets (fun _ => false) 2 workerInit ["A", "B", "C"]).dec.map
        Prod.fst = ["B", "C"] ∧
      (runGets (fun _ => false) 2 workerInit ["A", "B", "C"]).closed
        = [0]) := by
  refine ⟨runGets_card cf mc seq workerInit (by simp [workerInit]),
    ?_, by decide, by decide⟩
  intro st p d rest h
  exact delDecoder_evicts_front cf st p d rest h

/-- Witness for C2 at capacity 2 and the A, B, C access sequence. -/
theorem decoder_cache_lru_bound_witness :
    1 ≤ 2 ∧
    (runGets (fun _ => false) 2 workerInit ["A", "B", "C"]).dec.length ≤ 2 :=
  ⟨by decide,
    (decoder_cache_lru_bound 2 (by decide) (fun _ => false)
      ["A", "B", "C"]).1⟩

/-- C4 counterexample: with the non-empty cache {B} and the absent path
"A", `_del_decoder("A")` raises `KeyError` — it is not an error-free
no-op as claimed. -/
theorem del_decoder_absent_raises :
    (delDecoder (fun _ => false) ⟨[("B", 0)], [("B", (0, 0))], [], 1⟩
        (some "A")).2 = some (PyErr.keyError "A") := by decide

/-- C4 amended: releasing a path is an error-free no-op when the decoder
cache is empty; when the cache is non-empty and the path is absent,
`dict.pop` raises `KeyError` (the cache contents are left unchanged). -/
theorem del_decoder_absent_amended (cf : Nat → Bool) (st : CacheState)
    (p : String) :
    (st.dec = [] → delDecoder cf st (some p) = (st, none)) ∧
    (st.dec ≠ [] → odLookup st.dec p = none →
      delDecoder cf st (some p) = (st, some (PyErr.keyError p))) := by
  constructor
  · intro h
    simp [delDecoder, h]
  · intro h hl
    simp [delDecoder, h, hl]

/-- Witness for C4 amended at the empty cache and at the cache {B}. -/
theorem del_decoder_absent_amended_witness :
    (workerInit.dec = [] ∧
      delDecoder (fun _ => false) workerInit (some "A")
        = (workerInit, none)) ∧
    ((⟨[("B", 0)], [("B", (0, 0))], [], 1⟩ : CacheState).dec ≠ [] ∧
      delDecoder (fun _ => false) ⟨[("B", 0)], [("B", (0, 0))], [], 1⟩
          (some "A")
        = (⟨[("B", 0)], [("B", (0, 0))], [], 1⟩,
            some (PyErr.keyError "A"))) :=
  ⟨⟨rfl, (del_decoder_absent_amended (fun _ => false) workerInit "A").1 rfl⟩,
    ⟨by decide,
      (del_decoder_absent_amended (fun _ => false)
          ⟨[("B", 0)], [("B", (0, 0))], [], 1⟩ "A").2
        (by decide) (by decide)⟩⟩

/-- C6 counterexample: when a decoder's `close()` raises during release,
the error propagates out of `_del_decoder` — it is re-raised to the
caller, not logged and swallowed as claimed. -/
theorem del_decoder_close_error_propagates :
    (delDecoder (fun _ => true) ⟨[("A", 0)], [("A", (0, 0))], [], 1⟩
        (some "A")).2 = some (PyErr.closeError 0) := by decide

/-- C6 amended: `_decoder.close()` is not wrapped in any handler, so a
close error propagates to the caller of `_del_decoder`, both in targeted
release and in LRU eviction; the entry has already been popped from the
decoder cache, while the iterator-cache entry is left behind. -/
theorem del_decoder_close_error_amended (cf : Nat → Bool) (st : CacheState) :
    (∀ p d, odLookup st.dec p = some d → cf d = true →
      delDecoder cf st (some p)
        = ({ st with dec := odRemove st.dec p },
            some (PyErr.closeError d))) ∧
    (∀ p d rest, st.dec = (p, d) :: rest → cf d = true →
      delDecoder cf st none
        = ({ st with dec := rest }, some (PyErr.closeError d))) := by
  constructor
  · intro p d hl hcf
    have hne : st.dec ≠ [] := by
      intro h
      rw [h] at hl
      simp [odLookup] at hl
    simp [delDecoder, hne, hl, hcf]
  · intro p d rest h hcf
    simp [delDecoder, h, hcf]

/-- Witness for C6 amended: a single cached decoder whose close raises. -/
theorem del_decoder_close_error_amended_witness :
    odLookup ([("A", 0)] : List (String × Nat)) "A" = some 0 ∧
    delDecoder (fun _ => true) ⟨[("A", 0)], [("A", (0, 0))], [], 1⟩
        (some "A")
      = (⟨[], [("A", (0, 0))], [], 1⟩, some (PyErr.closeError 0)) := by
  refine ⟨by decide, ?_⟩
  have h := (del_decoder_close_error_amended (fun _ => true)
      ⟨[("A", 0)], [("A", (0, 0))], [], 1⟩).1 "A" 0 (by decide) rfl
  simpa [odRemove] using h

/-- C5 exhibit: on normal exhaustion of a one-frame video the decoder is
released and closed, but when the transform raises on a frame the per-video
loop propagates the error without ever reaching the `_del_decoder` call
(there is no try/finally in `__iter__`), leaving the video's decoder open
and cached. -/
theorem iter_error_leaks_decoder :
    ((iterOneVideo (fun _ => false) (fun _ => [5]) none 1 8 "A" none
        workerInit).2.1.dec = [] ∧
      (iterOneVideo (fun _ => false) (fun _ => [5]) none 1 8 "A" none
        workerInit).2.1.closed = [0]) ∧
    ((iterOneVideo (fun _ => false) (fun _ => [5])
          (some (fun _ => Except.error (PyErr.valueError "decode failed")))
          1 8 "A" none workerInit).2.2
        = some (PyErr.valueError "decode failed") ∧
      (iterOneVideo (fun _ => false) (fun _ => [5])
          (some (fun _ => Except.error (PyErr.valueError "decode failed")))
          1 8 "A" none workerInit).2.1.dec = [("A", 0)] ∧
      (iterOneVideo (fun _ => false) (fun _ => [5])
          (some (fun _ => Except.error (PyErr.valueError "decode failed")))
          1 8 "A" none workerInit).2.1.closed = []) := by
  exact ⟨⟨by decide, by decide⟩, by decide, by decide, by decide⟩

/-- C7: on a cache hit, `_get_cached_decoder` returns the stored
(decoder, iterator) pair unchanged — in particular the iterator's cached
cursor is preserved — opens no new decoder (`nextId` unchanged), closes
nothing (`closed` unchanged), evicts nothing (both caches are permutations
of their previous contents), and only moves the hit entry to the
most-recently-used end of both `OrderedDict`s. -/
theorem get_cached_decoder_hit (cf : Nat → Bool) (st : CacheState)
    (p : String) (mc : Nat) (d : Nat) (iv : Nat × Nat)
    (hd : odLookup st.dec p = some d) (hi : odLookup st.iter p = some iv) :
    getCachedDecoder cf st p mc
      = ({ st with
            dec := odRemove st.dec p ++ [(p, d)]
            iter := odRemove st.iter p ++ [(p, iv)] },
          Except.ok (d, iv)) ∧
    ((getCachedDecoder cf st p mc).1.dec).Perm st.dec ∧
    ((getCachedDecoder cf st p mc).1.iter).Perm st.iter ∧
    (getCachedDecoder cf st p mc).1.closed = st.closed ∧
    (getCachedDecoder cf st p mc).1.nextId = st.nextId := by
  have heq : getCachedDecoder cf st p mc
      = ({ st with
            dec := odRemove st.dec p ++ [(p, d)]
            iter := odRemove st.iter p ++ [(p, iv)] },
          Except.ok (d, iv)) := by
    simp [getCachedDecoder, hd, hi]
  refine ⟨heq, ?_, ?_, by rw [heq], by rw [heq]⟩
  · rw [heq]
    exact odRemove_append_perm st.dec p d hd
  · rw [heq]
    exact odRemove_append_perm st.iter p iv hi

/-- Witness for C7: a hit on "A" with cached cursor 5 returns the pair with
the cursor intact and only reorders the entries. -/
theorem get_cached_decoder_hit_witness :
    odLookup ([("A", 0), ("B", 1)] : List (String × Nat)) "A" = some 0 ∧
    getCachedDecoder (fun _ => false)
        ⟨[("A", 0), ("B", 1)], [("A", (0, 5)), ("B", (1, 0))], [], 2⟩ "A" 8
      = (⟨[("B", 1), ("A", 0)], [("B", (1, 0)), ("A", (0, 5))], [], 2⟩,
          Except.ok (0, (0, 5))) := by
  refine ⟨by decide, ?_⟩
  have h := (get_cached_decoder_hit (fun _ => false)
      ⟨[("A", 0), ("B", 1)], [("A", (0, 5)), ("B", (1, 0))], [], 2⟩ "A" 8
      0 (0, 5) (by decide) (by decide)).1
  simpa [odRemove] using h

/-- C8: constructing the dataset with neither `video_paths` nor `samples`
raises a `ValueError` during `__init__` (inside `_parse_inputs`), and
constructing it with `include_ids=True`, `sample_ids=None` but no samples
raises an `AttributeError` (`samples.values` on `None`) during `__init__`
— both are configuration failures raised at construction, before any
dataset object exists, hence before any iteration. -/
theorem init_dataset_config_errors (sid : Option (List String)) (inc : Bool)
    (cs : Option Nat) (sf : Bool) (mcd : Nat) (vps : List String) :
    initDataset none none sid inc cs sf mcd
      = Except.error
          (PyErr.valueError
            "Either video_paths or samples must be provided") ∧
    initDataset (some vps) none none true cs sf mcd
      = Except.error
          (PyErr.attributeError
            "NoneType object has no attribute values") := by
  exact ⟨rfl, rfl⟩

/-- C9: the collation wrapper replaces each chunk's frames entry by the
model collation of that chunk's frame list, passes `sample_idx` and
`frame_ids` through unchanged, and keeps the batch items in order (the
item at every position of the output is the collated image of the item at
the same position of the input). -/
theorem video_collate_spec {α β : Type} (model_collate : α → β)
    (batch : List (Chunk α)) :
    (videoCollateFn model_collate batch).length = batch.length ∧
    ∀ i : Nat, (videoCollateFn model_collate batch)[i]?
      = (batch[i]?).map
          (fun b => ⟨model_collate b.frames, b.sample_idx, b.frame_ids⟩) := by
  constructor
  · simp [videoCollateFn]
  · intro i
    simp [videoCollateFn]

/-- `_del_decoder` keeps the two caches keyed identically (assuming the
closes involved succeed, so that the iterator-cache deletion runs). -/
theorem delDecoder_keysAligned (cf : Nat → Bool) (hcf : ∀ i, cf i = false)
    (st : CacheState) (vp : Option String)
    (h : st.dec.map Prod.fst = st.iter.map Prod.fst) :
    ((delDecoder cf st vp).1).dec.map Prod.fst
      = ((delDecoder cf st vp).1).iter.map Prod.fst := by
  by_cases hnil : st.dec = []
  · simpa [delDecoder, hnil] using h
  · cases vp with
    | some p =>
      cases hl : odLookup st.dec p with
      | none => simpa [delDecoder, hnil, hl] using h
      | some d =>
        have hcfd : cf d = false := hcf d
        have hany : st.iter.any (fun e => e.1 == p) = true := by
          have h1 : (odLookup st.dec p).isSome = (odLookup st.iter p).isSome :=
            keys_lookup_isSome st.dec st.iter p h
          rw [hl] at h1
          rw [← odLookup_isSome_any st.iter p, ← h1]
          rfl
        simp only [delDecoder, hnil, if_neg hnil, hl, hcfd, hany,
          Bool.false_eq_true, if_false, if_true]
        simp only [keys_odRemove, h]
    | none =>
      rcases hd : st.dec with _ | ⟨⟨q, d0⟩, t⟩
      · exact absurd hd hnil
      · have hcfd : cf d0 = false := hcf d0
        rcases hi : st.iter with _ | ⟨⟨q2, iv⟩, t2⟩
        · rw [hd, hi] at h
          simp at h
        · rw [hd, hi] at h
          simp only [List.map_cons, List.cons.injEq] at h
          obtain ⟨hq, ht⟩ := h
          subst hq
          have hany : st.iter.any (fun e => e.1 == q) = true := by
            rw [hi]
            simp
          simp only [delDecoder, hnil, if_neg hnil, hd, hcfd, hany,
            Bool.false_eq_true, if_false, if_true]
          rw [hi]
          simpa [odRemove] using ht

/-- `_get_cached_decoder` keeps the two caches keyed identically: a hit
moves the same key to the back of both, a miss appends the same key to
both, and a triggered eviction removes the same key from both. -/
theorem getCachedDecoder_keysAligned (cf : Nat → Bool)
    (hcf : ∀ i, cf i = false) (st : CacheState) (p : String) (mc : Nat)
    (h : st.dec.map Prod.fst = st.iter.map Prod.fst) :
    ((getCachedDecoder cf st p mc).1).dec.map Prod.fst
      = ((getCachedDecoder cf st p mc).1).iter.map Prod.fst := by
  cases hl : odLookup st.dec p with
  | some d =>
    have hsome : (odLookup st.iter p).isSome = true := by
      rw [← keys_lookup_isSome st.dec st.iter p h, hl]
      rfl
    rcases Option.isSome_iff_exists.mp hsome with ⟨iv, hi⟩
    simp only [getCachedDecoder, hl, hi]
    simp only [List.map_append, keys_odRemove, h, List.map_cons,
      List.map_nil]
  | none =>
    have h1 : (st.dec ++ [(p, st.nextId)]).map Prod.fst
        = (st.iter ++ [(p, (st.nextId, 0))]).map Prod.fst := by
      simp [h]
    by_cases hov : mc < (st.dec ++ [(p, st.nextId)]).length
    · have h2 := delDecoder_keysAligned cf hcf
        { st with
          dec := st.dec ++ [(p, st.nextId)]
          iter := st.iter ++ [(p, (st.nextId, 0))]
          nextId := st.nextId + 1 } none h1
      rcases hdel : delDecoder cf
        { st with
          dec := st.dec ++ [(p, st.nextId)]
          iter := st.iter ++ [(p, (st.nextId, 0))]
          nextId := st.nextId + 1 } none with ⟨st2, e2⟩
      rw [hdel] at h2
      cases e2 <;> simp only [getCachedDecoder, hl, if_pos hov, hdel] <;>
        exact h2
    · simp only [getCachedDecoder, hl, if_neg hov]
      exact h1

/-- C10 counterexample: when a decoder's `close()` raises, a `_del_decoder`
call that removes an entry pops it from the decoder cache and then aborts
before the paired iterator-cache deletion, so afterwards the two caches'
key sets differ — the claimed invariant does not hold for every
`_del_decoder` call that removes an entry. -/
theorem caches_keys_desync_on_close_error :
    ((delDecoder (fun _ => true) ⟨[("A", 0)], [("A", (0, 0))], [], 1⟩
        (some "A")).1).dec.map Prod.fst
      ≠ ((delDecoder (fun _ => true) ⟨[("A", 0)], [("A", (0, 0))], [], 1⟩
          (some "A")).1).iter.map Prod.fst := by decide

/-- C10 amended: the decoder cache and the iterator cache hold exactly the
same keys, in the same order, after `worker_init_fn` (both empty) and after
every `_get_cached_decoder` and `_del_decoder` call, provided the decoder
closes involved succeed — when a close raises, the call aborts between the
paired deletions and the released/evicted key survives in the iterator
cache only. -/
theorem caches_keys_agree (cf : Nat → Bool) (hcf : ∀ i, cf i = false) :
    (workerInit.dec.map Prod.fst = workerInit.iter.map Prod.fst) ∧
    (∀ (st : CacheState) (p : String) (mc : Nat),
      st.dec.map Prod.fst = st.iter.map Prod.fst →
      ((getCachedDecoder cf st p mc).1).dec.map Prod.fst
        = ((getCachedDecoder cf st p mc).1).iter.map Prod.fst) ∧
    (∀ (st : CacheState) (vp : Option String),
      st.dec.map Prod.fst = st.iter.map Prod.fst →
      ((delDecoder cf st vp).1).dec.map Prod.fst
        = ((delDecoder cf st vp).1).iter.map Prod.fst) :=
  ⟨rfl,
    fun st p mc h => getCachedDecoder_keysAligned cf hcf st p mc h,
    fun st vp h => delDecoder_keysAligned cf hcf st vp h⟩

/-- Witness for C10: an insertion into a full capacity-1 cache (which
evicts) preserves the key alignment of the two caches. -/
theorem caches_keys_agree_witness :
    ((⟨[("A", 0)], [("A", (0, 0))], [], 1⟩ : CacheState).dec.map Prod.fst
      = (⟨[("A", 0)], [("A", (0, 0))], [], 1⟩ : CacheState).iter.map
          Prod.fst) ∧
    ((getCachedDecoder (fun _ => false)
        ⟨[("A", 0)], [("A", (0, 0))], [], 1⟩ "B" 1).1.dec.map Prod.fst
      = (getCachedDecoder (fun _ => false)
          ⟨[("A", 0)], [("A", (0, 0))], [], 1⟩ "B" 1).1.iter.map Prod.fst) :=
  ⟨by decide,
    (caches_keys_agree (fun _ => false) (fun _ => rfl)).2.1
      ⟨[("A", 0)], [("A", (0, 0))], [], 1⟩ "B" 1 (by decide)⟩
